import Mathlib

/-!
Verification of the explanation post-processing pipeline of this repository:
the `visualization_record` normalizer/selector and record builder from the
text-explainability notebook, the `attributions_dataset` / `tokens_dataset`
parsing comprehensions, `create_target_column`, and `number_encode_features`
from the tabular notebook.

Numeric values are modelled as exact rationals.  A float value is `Option ℚ`
where `none` models IEEE NaN: the source divides a numpy array by the maximum
absolute value without guarding the all-zero case, in which numpy computes
0.0/0.0 = NaN (a warning, not an exception).  NaN propagation through negation,
absolute value, multiplication, addition and comparisons follows IEEE semantics
(every arithmetic operation on NaN yields NaN; every comparison with NaN is
false; sorting places NaN last, as numpy does).
-/

/-- A Python/numpy float value: `none` models NaN, `some q` a real value. -/
abbrev V := Option ℚ

/-- Errors raised by the modelled Python code. -/
inductive PyErr where
  | keyError
  | indexError
  | valueError
deriving DecidableEq

/-- Unary minus on a float; `-NaN = NaN`. -/
def pneg : V → V
  | none => none
  | some q => some (-q)

/-- `np.abs` on a float; `abs NaN = NaN`. -/
def pabs : V → V
  | none => none
  | some q => some |q|

/-- Float multiplication; any operation with NaN yields NaN (`NaN * 0 = NaN`). -/
def pmul : V → V → V
  | some a, some b => some (a * b)
  | _, _ => none

/-- Float addition; any operation with NaN yields NaN. -/
def padd : V → V → V
  | some a, some b => some (a + b)
  | _, _ => none

/-- `x > 0` on a float; every comparison with NaN is false. -/
def pgt0 : V → Bool
  | none => false
  | some q => decide (0 < q)

/-- `ndarray.sum()`: left fold of float addition starting at 0 (empty sum is 0). -/
def psum (l : List V) : V := l.foldl padd (some 0)

/-- Float division by a rational.  In the source the divisor is the maximum
absolute value of the vector, so a zero divisor only occurs when the numerator
is also zero: numpy computes `0.0 / 0.0 = NaN` (warning, no exception). -/
def pydiv (x y : ℚ) : V := if y = 0 then none else some (x / y)

/-- Python builtin `max` over a sequence: `ValueError` on an empty sequence,
otherwise the maximum element. -/
def pymaxList : List ℚ → Except PyErr ℚ
  | [] => .error .valueError
  | x :: xs => .ok (xs.foldl max x)

/-- `int()` applied to a real value: truncation toward zero. -/
def pyint (q : ℚ) : ℤ := if 0 ≤ q then ⌊q⌋ else -⌊-q⌋

/-- Python slice `l[:k]` for an integer `k`: the first `k` elements when
`k ≥ 0`, everything but the last `-k` elements when `k < 0`. -/
def pySliceTo {α : Type} (l : List α) (k : ℤ) : List α :=
  if 0 ≤ k then l.take k.toNat else l.take (l.length - (-k).toNat)

/-- The ascending comparison used for sorting float values: NaN compares as
greatest, mirroring how `np.argsort` places NaN at the end of the order. -/
def vle : V → V → Bool
  | none, none => true
  | none, some _ => false
  | some _, none => true
  | some a, some b => decide (a ≤ b)

/-- `np.argsort keys`: the indices `0, …, n-1` sorted ascending by their key,
modelled with a stable sort (equal keys keep their original index order; the
source calls `np.argsort` with the default sort kind, for which numpy leaves
the order of equal elements unspecified — stability here is a model choice). -/
def npArgsort (keys : List V) : List ℕ :=
  List.insertionSort (fun i j => vle (keys.getD i none) (keys.getD j none) = true)
    (List.range keys.length)

/-- The ranking ("salience") vector built inside `visualization_record`:
negate when the prediction is below 0.5, then take absolute values unless
`match_to_pred` is set. -/
def salVector (pred : ℚ) (match_to_pred : Bool) (attrs : List V) : List V :=
  let s := if pred < 1/2 then attrs.map pneg else attrs
  if match_to_pred then s else s.map pabs

/-- The normalization branch of `visualization_record`:
`attributions / max(max(attributions), max(-attributions))`. -/
def normalizeStep (attributions : List ℚ) : Except PyErr (List V) :=
  match pymaxList attributions, pymaxList (attributions.map (fun x => -x)) with
  | .ok m1, .ok m2 => .ok (attributions.map (fun x => pydiv x (max m1 m2)))
  | _, _ => .error .valueError

/-- The salience-filtering branch of `visualization_record`: when a fraction
below 1 is supplied, keep only the `int(frac * n)` indices ranked highest by
the salience vector and zero out (multiply by a 0/1 mask) all the others. -/
def selectStep (pred : ℚ) (match_to_pred : Bool) (max_frac_to_show : Option ℚ)
    (attrs : List V) : List V :=
  match max_frac_to_show with
  | none => attrs
  | some f =>
      if f < 1 then
        let num_show : ℤ := pyint (f * (attrs.length : ℚ))
        let sal := salVector pred match_to_pred attrs
        let top := pySliceTo (npArgsort (sal.map pneg)) num_show
        List.zipWith pmul attrs
          ((List.range attrs.length).map (fun i => if i ∈ top then some 1 else some 0))
      else attrs

/-- The captum-style record assembled at the end of `visualization_record`. -/
structure VisualizationDataRecord where
  word_attributions : List V
  pred_prob : ℚ
  pred_class : ℤ
  true_class : ℤ
  attr_class : Bool
  attr_score : V
  raw_input : List String
  convergence_score : ℚ
deriving DecidableEq

/-- The `visualization_record` function of the text-explainability notebook:
optionally normalize, optionally salience-filter, then build the record. -/
def visualization_record (attributions : List ℚ) (text : List String) (pred : ℚ)
    (delta : ℚ) (true_label : ℤ) (normalize : Bool) (max_frac_to_show : Option ℚ)
    (match_to_pred : Bool) : Except PyErr VisualizationDataRecord :=
  match (if normalize then normalizeStep attributions else .ok (attributions.map some)) with
  | .error e => .error e
  | .ok attrs1 =>
      let attrs2 := selectStep pred match_to_pred max_frac_to_show attrs1
      .ok { word_attributions := attrs2
            pred_prob := pred
            pred_class := if pred > 1/2 then 1 else 0
            true_class := true_label
            attr_class := pgt0 (psum attrs2)
            attr_score := psum attrs2
            raw_input := text
            convergence_score := delta }

/-- One attribution entry of a raw explanation record.  `attribution` is the
"attribution" field (a one-element list of scores); `ptext` is the
`description.partial_text` field.  `none` models a missing field, whose lookup
raises `KeyError`. -/
structure ShapAttr where
  attribution : Option (List ℚ)
  ptext : Option String
deriving DecidableEq

/-- Extraction of one instance's attribution vector:
`[attr["attribution"][0] for attr in expl]`.  A missing field raises
`KeyError`; an empty attribution list raises `IndexError`. -/
def perInstanceAttr : List ShapAttr → Except PyErr (List ℚ)
  | [] => .ok []
  | attr :: rest =>
      match attr.attribution with
      | none => .error .keyError
      | some [] => .error .indexError
      | some (x :: _) =>
          match perInstanceAttr rest with
          | .error e => .error e
          | .ok xs => .ok (x :: xs)

/-- The `attributions_dataset` list comprehension: one attribution vector per
instance; an error raised for any instance propagates out of the whole
comprehension. -/
def attributions_dataset : List (List ShapAttr) → Except PyErr (List (List ℚ))
  | [] => .ok []
  | expl :: rest =>
      match perInstanceAttr expl with
      | .error e => .error e
      | .ok v =>
          match attributions_dataset rest with
          | .error e => .error e
          | .ok vs => .ok (v :: vs)

/-- Extraction of one instance's token list:
`[attr["description"]["partial_text"] for attr in expl]`. -/
def perInstanceTok : List ShapAttr → Except PyErr (List String)
  | [] => .ok []
  | attr :: rest =>
      match attr.ptext with
      | none => .error .keyError
      | some t =>
          match perInstanceTok rest with
          | .error e => .error e
          | .ok ts => .ok (t :: ts)

/-- The `tokens_dataset` list comprehension. -/
def tokens_dataset : List (List ShapAttr) → Except PyErr (List (List String))
  | [] => .ok []
  | expl :: rest =>
      match perInstanceTok expl with
      | .error e => .error e
      | .ok v =>
          match tokens_dataset rest with
          | .error e => .error e
          | .ok vs => .ok (v :: vs)

/-- Python `range(a, b)` over integers. -/
def pyRange (a b : ℤ) : List ℤ := (List.range (b - a).toNat).map (fun i => a + Int.ofNat i)

/-- `create_target_column` from the text notebook, modelled on the `Rating`
column: drop every row whose rating equals one of the neutral values strictly
between the two thresholds, then pair each remaining rating with its
`Sentiment` value (`1` when `Rating >= min_positive_score`, else `0`). -/
def create_target_column (df : List ℤ) (min_positive_score max_negative_score : ℤ) :
    List (ℤ × ℤ) :=
  let neutral_values := pyRange (max_negative_score + 1) min_positive_score
  let kept := neutral_values.foldl (fun d v => d.filter (fun r => r != v)) df
  kept.map (fun r => (r, if min_positive_score ≤ r then (1 : ℤ) else 0))

/-- A pandas column: object dtype (strings, `none` models NaN), integer dtype,
or float dtype. -/
inductive PdCol where
  | objCol : List (Option String) → PdCol
  | intCol : List ℤ → PdCol
  | fltCol : List ℚ → PdCol
deriving DecidableEq

/-- The number of rows a column holds. -/
def colLen : PdCol → ℕ
  | .objCol v => v.length
  | .intCol v => v.length
  | .fltCol v => v.length

/-- Whether a column has object dtype. -/
def isObjCol : PdCol → Bool
  | .objCol _ => true
  | _ => false

/-- `Series.fillna s`: replace missing values by `s`. -/
def fillna (s : String) (vals : List (Option String)) : List String :=
  vals.map (fun o => o.getD s)

/-- `LabelEncoder.fit_transform`: encode each value by its index in the sorted
list of distinct values. -/
def fit_transform (vals : List String) : List ℤ :=
  let classes := List.insertionSort (fun a b : String => a ≤ b) vals.dedup
  vals.map (fun v => (classes.indexOf v : ℤ))

/-- The per-column body of the `number_encode_features` loop: an object-dtype
column is replaced by its integer label encoding (after filling missing values
with "None"); any other column is untouched. -/
def encodeCol (c : String × PdCol) : String × PdCol :=
  match c.2 with
  | .objCol vals => (c.1, PdCol.intCol (fit_transform (fillna "None" vals)))
  | _ => c

/-- `number_encode_features` from the tabular notebook: copy the dataframe and
encode each object-dtype column; all other columns are untouched.  Also
returns the fitted encoders (here: each encoded column's sorted class list). -/
def number_encode_features (df : List (String × PdCol)) :
    List (String × PdCol) × List (String × List String) :=
  (df.map encodeCol,
   df.filterMap (fun c =>
      match c.2 with
      | .objCol vals =>
          some (c.1, List.insertionSort (fun a b : String => a ≤ b)
            (fillna "None" vals).dedup)
      | _ => none))

/-- The ranking vector exactly as the specification words it: negate the
attribution vector when the prediction is below 0.5, and take absolute values
when `match_to_pred` is false.  Stated over plain rationals, to be compared
with the source-derived `salVector`. -/
def specRanking (pred : ℚ) (match_to_pred : Bool) (a : List ℚ) : List ℚ :=
  if match_to_pred then (if pred < 1/2 then a.map (fun x => -x) else a)
  else (if pred < 1/2 then a.map (fun x => -x) else a).map (fun x => |x|)

/-- `T` is a valid top-`k` index selection for the ranking values `rank`:
distinct in-range indices, exactly `min k n` of them, and every selected index
ranks at least as high as every non-selected one. -/
def IsTopKSelection (rank : List ℚ) (k : ℕ) (T : List ℕ) : Prop :=
  T.Nodup ∧ T.length = min k rank.length ∧ (∀ i ∈ T, i < rank.length) ∧
    ∀ i ∈ T, ∀ j, j < rank.length → j ∉ T → rank.getD j 0 ≤ rank.getD i 0

/-! ## Helper lemmas -/

lemma le_foldl_max_init (t : List ℚ) (a b : ℚ) (h : b ≤ a) : b ≤ t.foldl max a := by
  induction t generalizing a with
  | nil => simpa
  | cons c t ih => exact ih (max a c) (h.trans (le_max_left a c))

lemma le_foldl_max (xs : List ℚ) (a x : ℚ) (h : x = a ∨ x ∈ xs) :
    x ≤ xs.foldl max a := by
  induction xs generalizing a with
  | nil =>
      rcases h with rfl | h
      · simp
      · simp at h
  | cons b t ih =>
      simp only [List.foldl_cons]
      rcases h with rfl | h
      · exact le_foldl_max_init t (max x b) x (le_max_left x b)
      · rcases List.mem_cons.mp h with rfl | h
        · exact le_foldl_max_init t (max a x) x (le_max_right a x)
        · exact ih (max a b) (Or.inr h)

lemma foldl_max_mem (xs : List ℚ) (a : ℚ) :
    xs.foldl max a = a ∨ xs.foldl max a ∈ xs := by
  induction xs generalizing a with
  | nil => simp
  | cons b t ih =>
      simp only [List.foldl_cons, List.mem_cons]
      rcases ih (max a b) with h | h
      · rcases max_choice a b with hm | hm
        · exact Or.inl (h.trans hm)
        · exact Or.inr (Or.inl (h.trans hm))
      · exact Or.inr (Or.inr h)

lemma getD_map_of_lt {α β : Type} (l : List α) (g : α → β) (i : ℕ)
    (h : i < l.length) (d : β) (d' : α) :
    (l.map g).getD i d = g (l.getD i d') := by
  induction l generalizing i with
  | nil => simp at h
  | cons a t ih =>
      cases i with
      | zero => simp
      | succ j => simpa using ih j (by simpa using h)

lemma mem_foldl_filter (vs : List ℤ) (d : List ℤ) (x : ℤ) :
    x ∈ vs.foldl (fun d v => d.filter (fun r => r != v)) d ↔
      x ∈ d ∧ ∀ v ∈ vs, x ≠ v := by
  induction vs generalizing d with
  | nil => simp
  | cons v t ih =>
      simp only [List.foldl_cons, ih, List.mem_filter, bne_iff_ne, ne_eq,
        List.mem_cons, forall_eq_or_imp]
      tauto

lemma mem_pyRange (a b x : ℤ) : x ∈ pyRange a b ↔ a ≤ x ∧ x < b := by
  unfold pyRange
  rw [List.mem_map]
  constructor
  · rintro ⟨i, hi, rfl⟩
    rw [List.mem_range] at hi
    simp only [Int.ofNat_eq_coe]
    omega
  · rintro ⟨h1, h2⟩
    refine ⟨(x - a).toNat, ?_, ?_⟩
    · rw [List.mem_range]; omega
    · simp only [Int.ofNat_eq_coe]; omega

/-! ## Claim C8 -/

/-- Claim C8: with `max_negative_score < min_positive_score`, every row kept by
`create_target_column` has a rating at least `min_positive_score` or at most
`max_negative_score` (the in-between ratings are dropped), and the added
`Sentiment` value is 1 exactly on the rows with rating at least
`min_positive_score` and 0 on all the others. -/
theorem C8_create_target_column (df : List ℤ) (mp mn : ℤ) (hmn : mn < mp)
    (p : ℤ × ℤ) (hp : p ∈ create_target_column df mp mn) :
    (mp ≤ p.1 ∨ p.1 ≤ mn) ∧ (p.2 = 1 ↔ mp ≤ p.1) ∧ (p.2 = 0 ↔ p.1 < mp) := by
  unfold create_target_column at hp
  rw [List.mem_map] at hp
  obtain ⟨r, hr, rfl⟩ := hp
  rw [mem_foldl_filter] at hr
  obtain ⟨-, hneutral⟩ := hr
  have hout : mp ≤ r ∨ r ≤ mn := by
    by_contra hc
    push_neg at hc
    exact hneutral r ((mem_pyRange _ _ _).mpr (by omega)) rfl
  refine ⟨hout, ?_, ?_⟩ <;> dsimp only <;> split_ifs with h <;> simp <;> omega

/-- Concrete instance of C8: thresholds 4/2 on ratings `[1,3,5]` keep the rows
rated 1 and 5, and the row rated 5 gets sentiment 1. -/
theorem C8_create_target_column_witness :
    ((2:ℤ) < 4) ∧ ((5:ℤ), (1:ℤ)) ∈ create_target_column [1, 3, 5] 4 2 ∧
      ((4 ≤ (5:ℤ) ∨ (5:ℤ) ≤ 2) ∧ (((1:ℤ) = 1) ↔ 4 ≤ (5:ℤ)) ∧ (((1:ℤ) = 0) ↔ (5:ℤ) < 4)) :=
  ⟨by decide, by decide, C8_create_target_column [1, 3, 5] 4 2 (by decide) (5, 1) (by decide)⟩

/-! ## Claim C9 -/

/-- Default entry used with `List.getD` when indexing a dataframe. -/
def dfltCol : String × PdCol := ("", PdCol.intCol [])

lemma encodeCol_fst (c : String × PdCol) : (encodeCol c).1 = c.1 := by
  obtain ⟨n, col⟩ := c
  cases col <;> rfl

lemma encodeCol_nonobj (c : String × PdCol) (h : isObjCol c.2 = false) :
    encodeCol c = c := by
  obtain ⟨n, col⟩ := c
  cases col
  · simp [isObjCol] at h
  · rfl
  · rfl

lemma encodeCol_obj (c : String × PdCol) (vals : List (Option String))
    (h : c.2 = PdCol.objCol vals) :
    encodeCol c = (c.1, PdCol.intCol (fit_transform (fillna "None" vals))) := by
  obtain ⟨n, col⟩ := c
  simp only at h
  subst h
  rfl

lemma colLen_encodeCol (c : String × PdCol) : colLen (encodeCol c).2 = colLen c.2 := by
  obtain ⟨n, col⟩ := c
  cases col <;> simp [encodeCol, colLen, fit_transform, fillna]

/-- Claim C9: `number_encode_features` preserves the column count, the column
names and their order, and every column's row count; every non-object column
is returned unchanged, and every object-dtype column is replaced by the
integer label codes of its (NaN-filled) values. -/
theorem C9_number_encode_features (df : List (String × PdCol)) (i : ℕ)
    (hi : i < df.length) :
    (number_encode_features df).1.length = df.length ∧
    (number_encode_features df).1.map Prod.fst = df.map Prod.fst ∧
    colLen ((number_encode_features df).1.getD i dfltCol).2 =
      colLen (df.getD i dfltCol).2 ∧
    (isObjCol (df.getD i dfltCol).2 = false →
      (number_encode_features df).1.getD i dfltCol = df.getD i dfltCol) ∧
    (∀ vals, (df.getD i dfltCol).2 = PdCol.objCol vals →
      (number_encode_features df).1.getD i dfltCol =
        ((df.getD i dfltCol).1, PdCol.intCol (fit_transform (fillna "None" vals)))) := by
  have hfst : (number_encode_features df).1 = df.map encodeCol := rfl
  have hget : (number_encode_features df).1.getD i dfltCol = encodeCol (df.getD i dfltCol) := by
    rw [hfst]
    exact getD_map_of_lt df encodeCol i hi dfltCol dfltCol
  refine ⟨?_, ?_, ?_, ?_, ?_⟩
  · rw [hfst, List.length_map]
  · rw [hfst, List.map_map]
    exact List.map_congr_left (fun c _ => encodeCol_fst c)
  · rw [hget]
    exact colLen_encodeCol _
  · intro h
    rw [hget]
    exact encodeCol_nonobj _ h
  · intro vals hv
    rw [hget]
    exact encodeCol_obj _ vals hv

/-- Concrete instance of C9 on a two-column dataframe with one numeric and one
object column. -/
theorem C9_number_encode_features_witness :
    (number_encode_features
        [("age", PdCol.intCol [30, 40]), ("sex", PdCol.objCol [some "f", some "m"])]).1.length =
      ([("age", PdCol.intCol [30, 40]),
        ("sex", PdCol.objCol [some "f", some "m"])] : List (String × PdCol)).length :=
  (C9_number_encode_features
    [("age", PdCol.intCol [30, 40]), ("sex", PdCol.objCol [some "f", some "m"])] 1
    (by decide)).1

/-! ## Claim C7 -/

/-- Claim C7: whenever `visualization_record` returns a record, its
`predicted_class` is 1 exactly when the prediction is strictly greater than
0.5 and 0 otherwise (a prediction of exactly 0.5 yields class 0). -/
theorem C7_pred_class (a : List ℚ) (text : List String) (pred d : ℚ) (l : ℤ)
    (norm : Bool) (f : Option ℚ) (m : Bool) (r : VisualizationDataRecord)
    (h : visualization_record a text pred d l norm f m = .ok r) :
    (r.pred_class = 1 ↔ 1/2 < pred) ∧ (r.pred_class = 0 ↔ ¬ 1/2 < pred) := by
  unfold visualization_record at h
  cases hn : (if norm then normalizeStep a else .ok (a.map some)) with
  | error e => rw [hn] at h; exact absurd h (by simp)
  | ok attrs1 =>
      rw [hn] at h
      simp only [Except.ok.injEq] at h
      subst h
      dsimp only
      simp only [gt_iff_lt]
      constructor <;> split_ifs with hc <;> rw [one_div] at hc <;> simp [hc]

/-- Concrete instances of C7: prediction exactly 0.5 yields class 0, and
prediction 0.500001 yields class 1. -/
theorem C7_pred_class_witness :
    (((0:ℤ) = 1) ↔ (1/2:ℚ) < 1/2) ∧ (((1:ℤ) = 1) ↔ (1/2:ℚ) < 500001/1000000) :=
  ⟨(C7_pred_class [] [] (1/2) 0 0 false none false ⟨[], 1/2, 0, 0, false, some 0, [], 0⟩
      (by norm_num [visualization_record, selectStep, psum, pgt0])).1,
   (C7_pred_class [] [] (500001/1000000) 0 0 false none false
      ⟨[], 500001/1000000, 1, 0, false, some 0, [], 0⟩
      (by norm_num [visualization_record, selectStep, psum, pgt0])).1⟩

/-! ## Claims C1 and C4 -/

lemma foldl_max_zero_replicate (k : ℕ) : (List.replicate k (0:ℚ)).foldl max 0 = 0 := by
  induction k with
  | zero => rfl
  | succ k ih => simpa [List.replicate_succ] using ih

lemma selectStep_nil (pred : ℚ) (m : Bool) (f : Option ℚ) :
    selectStep pred m f [] = [] := by
  cases f with
  | none => rfl
  | some f' =>
      simp only [selectStep]
      split_ifs <;> simp

/-- Counterexample to claim C1: on the all-zero vector `[0,0,0]` with
normalization enabled, the code divides 0/0 and returns the all-NaN vector,
not the all-zero vector the claim promises. -/
theorem C1_counterexample :
    (visualization_record [0, 0, 0] ["a", "b", "c"] (3/10) 0 1 true (some 1) false).map
        (fun r => r.word_attributions) = Except.ok [none, none, none] ∧
      ([(none : V), none, none] ≠ [some 0, some 0, some 0]) := by
  constructor
  · norm_num [visualization_record, normalizeStep, pymaxList, pydiv, selectStep,
      Except.map]
  · simp

/-- Amended claim C1: for every nonempty all-zero attribution vector with
normalization enabled (and no salience filtering, `f = 1`), the code raises no
error, but it does not return the vector unchanged: dividing by the zero
maximum turns every entry into NaN. -/
theorem C1_all_zero_gives_nan (n : ℕ) (hn : 0 < n) (text : List String)
    (pred d : ℚ) (l : ℤ) (m : Bool) :
    (visualization_record (List.replicate n 0) text pred d l true (some 1) m).map
        (fun r => r.word_attributions) = Except.ok (List.replicate n none) := by
  obtain ⟨k, rfl⟩ : ∃ k, n = k + 1 := ⟨n - 1, by omega⟩
  have h1 : pymaxList (List.replicate (k + 1) (0:ℚ)) = .ok 0 := by
    simp [List.replicate_succ, pymaxList, foldl_max_zero_replicate]
  have h2 : (List.replicate (k + 1) (0:ℚ)).map (fun x => -x) = List.replicate (k + 1) 0 := by
    simp [List.map_replicate]
  have h3 : normalizeStep (List.replicate (k + 1) 0) = .ok (List.replicate (k + 1) none) := by
    rw [normalizeStep, h2, h1]
    simp [List.map_replicate, pydiv]
  rw [visualization_record]
  simp only [if_true, h3]
  simp [selectStep, Except.map]

/-- Concrete instance of the amended C1 at `n = 3`. -/
theorem C1_all_zero_gives_nan_witness :
    (visualization_record (List.replicate 3 0) ["a", "b", "c"] (3/10) 0 1 true
        (some 1) false).map (fun r => r.word_attributions) =
      Except.ok (List.replicate 3 none) :=
  C1_all_zero_gives_nan 3 (by decide) ["a", "b", "c"] (3/10) 0 1 false

/-- Counterexample to claim C4: on the empty vector with normalization
enabled, Python's `max` over the empty sequence raises `ValueError`; the code
does not return an empty output. -/
theorem C4_counterexample :
    visualization_record [] [] 0 0 0 true (some (1/20)) false =
      Except.error PyErr.valueError := by
  norm_num [visualization_record, normalizeStep, pymaxList]

/-- Amended claim C4: the empty attribution vector yields an empty output and
no error for every salience fraction when normalization is disabled; with
normalization enabled it raises `ValueError` (from `max` on an empty
sequence) for every salience fraction. -/
theorem C4_empty_vector (text : List String) (pred d : ℚ) (l : ℤ)
    (f : Option ℚ) (m : Bool) :
    (visualization_record [] text pred d l false f m).map
        (fun r => r.word_attributions) = Except.ok [] ∧
      visualization_record [] text pred d l true f m = Except.error PyErr.valueError := by
  constructor
  · rw [visualization_record]
    simp [selectStep_nil, Except.map]
  · rw [visualization_record]
    simp [normalizeStep, pymaxList]

/-! ## Claim C5 -/

lemma perInstanceAttr_missing (expl : List ShapAttr)
    (h : ∃ attr ∈ expl, attr.attribution = none) (v : List ℚ) :
    perInstanceAttr expl ≠ Except.ok v := by
  induction expl generalizing v with
  | nil => simp at h
  | cons a rest ih =>
      obtain ⟨b, hb, hbn⟩ := h
      cases ha : a.attribution with
      | none => simp [perInstanceAttr, ha]
      | some l =>
          cases l with
          | nil => simp [perInstanceAttr, ha]
          | cons x xs =>
              have hbrest : b ∈ rest := by
                rcases List.mem_cons.mp hb with rfl | h'
                · rw [ha] at hbn; exact absurd hbn (by simp)
                · exact h'
              cases hr : perInstanceAttr rest with
              | error e => simp [perInstanceAttr, ha, hr]
              | ok xs' => exact absurd hr (ih ⟨b, hbrest, hbn⟩ xs')

/-- Counterexample to claim C5: in a batch whose second record lacks the
attribution field, the whole comprehension aborts with `KeyError`: the result
carries no output for any instance, even though both well-formed records
process fine on their own. -/
theorem C5_counterexample :
    attributions_dataset
        [[⟨some [1/2], some "a"⟩], [⟨none, some "b"⟩], [⟨some [3], some "c"⟩]] =
      Except.error PyErr.keyError ∧
    perInstanceAttr [⟨some [1/2], some "a"⟩] = Except.ok [1/2] ∧
    perInstanceAttr [⟨some [3], some "c"⟩] = Except.ok [3] :=
  ⟨rfl, rfl, rfl⟩

lemma perInstanceTok_missing (expl : List ShapAttr)
    (h : ∃ attr ∈ expl, attr.ptext = none) (v : List String) :
    perInstanceTok expl ≠ Except.ok v := by
  induction expl generalizing v with
  | nil => simp at h
  | cons a rest ih =>
      obtain ⟨b, hb, hbn⟩ := h
      cases ha : a.ptext with
      | none => simp [perInstanceTok, ha]
      | some t =>
          have hbrest : b ∈ rest := by
            rcases List.mem_cons.mp hb with rfl | h'
            · rw [ha] at hbn; exact absurd hbn (by simp)
            · exact h'
          cases hr : perInstanceTok rest with
          | error e => simp [perInstanceTok, ha, hr]
          | ok ts => exact absurd hr (ih ⟨b, hbrest, hbn⟩ ts)

lemma attributions_dataset_abort (shap_out : List (List ShapAttr))
    (h : ∃ expl ∈ shap_out, ∃ attr ∈ expl, attr.attribution = none)
    (out : List (List ℚ)) :
    attributions_dataset shap_out ≠ Except.ok out := by
  induction shap_out generalizing out with
  | nil => simp at h
  | cons expl rest ih =>
      obtain ⟨e, he, hattr⟩ := h
      cases hp : perInstanceAttr expl with
      | error err => simp [attributions_dataset, hp]
      | ok v =>
          rcases List.mem_cons.mp he with rfl | hrest
          · exact absurd hp (perInstanceAttr_missing e hattr v)
          · cases hd : attributions_dataset rest with
            | error err => simp [attributions_dataset, hp, hd]
            | ok vs => exact absurd hd (ih ⟨e, hrest, hattr⟩ vs)

lemma tokens_dataset_abort (shap_out : List (List ShapAttr))
    (h : ∃ expl ∈ shap_out, ∃ attr ∈ expl, attr.ptext = none)
    (out : List (List String)) :
    tokens_dataset shap_out ≠ Except.ok out := by
  induction shap_out generalizing out with
  | nil => simp at h
  | cons expl rest ih =>
      obtain ⟨e, he, hattr⟩ := h
      cases hp : perInstanceTok expl with
      | error err => simp [tokens_dataset, hp]
      | ok v =>
          rcases List.mem_cons.mp he with rfl | hrest
          · exact absurd hp (perInstanceTok_missing e hattr v)
          · cases hd : tokens_dataset rest with
            | error err => simp [tokens_dataset, hp, hd]
            | ok vs => exact absurd hd (ih ⟨e, hrest, hattr⟩ vs)

/-- Amended claim C5: a record whose entry lacks the numeric attribution field
or the descriptor field causes an error that is surfaced (not silently
dropped), but it aborts the entire batch comprehension it occurs in (the
attribution comprehension for a missing attribution field, the token
comprehension for a missing descriptor): that batch produces no output at
all, so the other instances are not processed independently. -/
theorem C5_malformed_aborts_batch (shap_out : List (List ShapAttr)) :
    ((∃ expl ∈ shap_out, ∃ attr ∈ expl, attr.attribution = none) →
      ∀ out, attributions_dataset shap_out ≠ Except.ok out) ∧
    ((∃ expl ∈ shap_out, ∃ attr ∈ expl, attr.ptext = none) →
      ∀ out, tokens_dataset shap_out ≠ Except.ok out) :=
  ⟨fun h out => attributions_dataset_abort shap_out h out,
   fun h out => tokens_dataset_abort shap_out h out⟩

/-- Concrete instance of the amended C5: an entry missing both fields aborts
both comprehensions. -/
theorem C5_malformed_aborts_batch_witness :
    attributions_dataset [[⟨none, none⟩]] ≠ Except.ok [] ∧
      tokens_dataset [[⟨none, none⟩]] ≠ Except.ok [] :=
  ⟨(C5_malformed_aborts_batch [[⟨none, none⟩]]).1
      ⟨[⟨none, none⟩], List.mem_singleton.mpr rfl,
        ⟨none, none⟩, List.mem_singleton.mpr rfl, rfl⟩ [],
   (C5_malformed_aborts_batch [[⟨none, none⟩]]).2
      ⟨[⟨none, none⟩], List.mem_singleton.mpr rfl,
        ⟨none, none⟩, List.mem_singleton.mpr rfl, rfl⟩ []⟩

/-! ## Claim C6 -/

/-- Claim C6: on a vector with at least one nonzero entry, normalization
divides by the maximum absolute value `M > 0` of the vector, so the result has
maximum absolute value exactly 1 and keeps the sign of every entry and the
relative order of any two entries; on `[0.2, -0.8, 0.1]` the full record
builder with normalization enabled outputs `[0.25, -1, 0.125]`. -/
theorem C6_normalization (a : List ℚ) (h : ∃ x ∈ a, x ≠ 0) :
    (∃ M : ℚ, 0 < M ∧
      normalizeStep a = Except.ok (a.map (fun x => some (x / M))) ∧
      (∀ x ∈ a, |x / M| ≤ 1) ∧ (∃ x ∈ a, |x / M| = 1) ∧
      (∀ x ∈ a, (0 < x ↔ 0 < x / M) ∧ (x < 0 ↔ x / M < 0) ∧ (x = 0 ↔ x / M = 0)) ∧
      (∀ x y, x ∈ a → y ∈ a → ((x < y ↔ x / M < y / M) ∧ (x ≤ y ↔ x / M ≤ y / M)))) ∧
    (visualization_record [1/5, -4/5, 1/10] ["a", "b", "c"] (3/10) 0 1 true (some 1)
        false).map (fun r => r.word_attributions) =
      Except.ok [some (1/4), some (-1), some (1/8)] := by
  constructor
  · obtain ⟨x0, hx0, hx0ne⟩ := h
    obtain ⟨hd, tl, rfl⟩ : ∃ hd tl, a = hd :: tl := by
      cases a with
      | nil => simp at hx0
      | cons hd tl => exact ⟨hd, tl, rfl⟩
    set m1 := tl.foldl max hd with hm1
    set m2 := (tl.map (fun x => -x)).foldl max (-hd) with hm2
    have hub1 : ∀ x ∈ hd :: tl, x ≤ max m1 m2 := by
      intro x hx
      rcases List.mem_cons.mp hx with rfl | hx
      · exact (le_foldl_max tl x x (Or.inl rfl)).trans (le_max_left _ _)
      · exact (le_foldl_max tl hd x (Or.inr hx)).trans (le_max_left _ _)
    have hub2 : ∀ x ∈ hd :: tl, -x ≤ max m1 m2 := by
      intro x hx
      rcases List.mem_cons.mp hx with rfl | hx
      · exact (le_foldl_max _ (-x) (-x) (Or.inl rfl)).trans (le_max_right _ _)
      · exact (le_foldl_max _ (-hd) (-x)
          (Or.inr (List.mem_map_of_mem _ hx))).trans (le_max_right _ _)
    have habs : ∀ x ∈ hd :: tl, |x| ≤ max m1 m2 := fun x hx =>
      abs_le.mpr ⟨by linarith [hub2 x hx], hub1 x hx⟩
    have hMpos : 0 < max m1 m2 := lt_of_lt_of_le (abs_pos.mpr hx0ne) (habs x0 hx0)
    have hattain : ∃ x ∈ hd :: tl, |x| = max m1 m2 := by
      rcases max_choice m1 m2 with hc | hc
      · have hmem : m1 ∈ hd :: tl := by
          rcases foldl_max_mem tl hd with he | hm
          · rw [hm1, he]; exact List.mem_cons_self _ _
          · exact List.mem_cons_of_mem _ hm
        refine ⟨m1, hmem, le_antisymm (habs m1 hmem) ?_⟩
        rw [hc]
        exact le_abs_self m1
      · obtain ⟨y, hy, hyeq⟩ : ∃ y ∈ hd :: tl, m2 = -y := by
          rcases foldl_max_mem (tl.map (fun x => -x)) (-hd) with he | hm
          · exact ⟨hd, List.mem_cons_self _ _, by rw [hm2, he]⟩
          · obtain ⟨y, hy, hye⟩ := List.mem_map.mp hm
            exact ⟨y, List.mem_cons_of_mem _ hy, hye.symm⟩
        refine ⟨y, hy, le_antisymm (habs y hy) ?_⟩
        rw [hc, hyeq]
        exact neg_le_abs y
    have hnorm : normalizeStep (hd :: tl) =
        Except.ok ((hd :: tl).map (fun x => some (x / max m1 m2))) := by
      have h0 : normalizeStep (hd :: tl) =
          Except.ok ((hd :: tl).map (fun x => pydiv x (max m1 m2))) := rfl
      rw [h0]
      congr 1
      apply List.map_congr_left
      intro x _
      rw [pydiv, if_neg hMpos.ne']
    refine ⟨max m1 m2, hMpos, hnorm, ?_, ?_, ?_, ?_⟩
    · intro x hx
      rw [abs_div, abs_of_pos hMpos]
      exact (div_le_one hMpos).mpr (habs x hx)
    · obtain ⟨x, hx, hxe⟩ := hattain
      exact ⟨x, hx, by rw [abs_div, abs_of_pos hMpos, hxe, div_self hMpos.ne']⟩
    · intro x hx
      refine ⟨?_, ?_, ?_⟩
      · constructor
        · exact fun hp => div_pos hp hMpos
        · intro hp
          have h9 : (0:ℚ) / max m1 m2 < x / max m1 m2 := by rwa [zero_div]
          exact (div_lt_div_iff_of_pos_right hMpos).mp h9
      · constructor
        · intro hp
          have h9 : x / max m1 m2 < 0 / max m1 m2 :=
            (div_lt_div_iff_of_pos_right hMpos).mpr hp
          rwa [zero_div] at h9
        · intro hp
          have h9 : x / max m1 m2 < 0 / max m1 m2 := by rwa [zero_div]
          exact (div_lt_div_iff_of_pos_right hMpos).mp h9
      · rw [div_eq_zero_iff]
        simp [hMpos.ne']
    · intro x y hx hy
      exact ⟨(div_lt_div_iff_of_pos_right hMpos).symm,
        (div_le_div_iff_of_pos_right hMpos).symm⟩
  · norm_num [visualization_record, normalizeStep, pymaxList, pydiv, selectStep,
      Except.map, max_def]

/-- Concrete instance of C6: the spec scenario `[0.2, -0.8, 0.1]`, normalized,
displays `[0.25, -1, 0.125]`. -/
theorem C6_normalization_witness :
    (visualization_record [1/5, -4/5, 1/10] ["a", "b", "c"] (3/10) 0 1 true (some 1)
        false).map (fun r => r.word_attributions) =
      Except.ok [some (1/4), some (-1), some (1/8)] :=
  (C6_normalization [1/5, -4/5, 1/10] ⟨1/5, by simp, by norm_num⟩).2

/-! ## Claim C2 helpers -/

lemma specRanking_length (pred : ℚ) (m : Bool) (a : List ℚ) :
    (specRanking pred m a).length = a.length := by
  rw [specRanking]
  split_ifs <;> simp

lemma salVector_eq_spec (pred : ℚ) (m : Bool) (a : List ℚ) :
    salVector pred m (a.map some) = (specRanking pred m a).map some := by
  simp only [salVector, specRanking]
  split_ifs <;> simp only [List.map_map] <;> exact List.map_congr_left (fun x _ => rfl)

lemma vle_total (x y : V) : vle x y = true ∨ vle y x = true := by
  cases x <;> cases y <;> simp [vle, decide_eq_true_eq]
  exact le_total _ _

lemma vle_trans (x y z : V) (h1 : vle x y = true) (h2 : vle y z = true) :
    vle x z = true := by
  cases x <;> cases y <;> cases z <;> simp_all [vle, decide_eq_true_eq]
  exact le_trans h1 h2

lemma getD_zipWith_of_lt (f : V → V → V) (l1 l2 : List V) (i : ℕ)
    (h1 : i < l1.length) (h2 : i < l2.length) (d d1 d2 : V) :
    (List.zipWith f l1 l2).getD i d = f (l1.getD i d1) (l2.getD i d2) := by
  induction l1 generalizing l2 i with
  | nil => simp at h1
  | cons a t1 ih =>
      cases l2 with
      | nil => simp at h2
      | cons b t2 =>
          cases i with
          | zero => rfl
          | succ j =>
              simpa using ih t2 j (by simpa using h1) (by simpa using h2)

lemma getD_range_of_lt (n i : ℕ) (h : i < n) (d : ℕ) :
    (List.range n).getD i d = i := by
  rw [List.getD_eq_getElem?_getD, List.getElem?_range h]
  rfl

lemma selectStep_topk (pred : ℚ) (m : Bool) (f : ℚ) (h0 : 0 < f) (h1 : f < 1)
    (a : List ℚ) :
    ∃ T : List ℕ,
      IsTopKSelection (specRanking pred m a) (⌊f * (a.length : ℚ)⌋).toNat T ∧
      (selectStep pred m (some f) (a.map some)).length = a.length ∧
      ∀ i, i < a.length →
        (selectStep pred m (some f) (a.map some)).getD i none =
          if i ∈ T then some (a.getD i 0) else some 0 := by
  set n := a.length with hn
  set rank := specRanking pred m a with hrank
  have hranklen : rank.length = n := specRanking_length pred m a
  have hsal : salVector pred m (a.map some) = rank.map some :=
    salVector_eq_spec pred m a
  set keys := (rank.map some).map pneg with hkeys
  have hkeys2 : keys = rank.map (fun x => some (-x)) := by
    rw [hkeys, List.map_map]
    exact List.map_congr_left (fun x _ => rfl)
  have hkeyslen : keys.length = n := by rw [hkeys2, List.length_map, hranklen]
  have hkeyget : ∀ i, i < n → keys.getD i none = some (-(rank.getD i 0)) := by
    intro i hi
    rw [hkeys2, getD_map_of_lt rank _ i (by rw [hranklen]; exact hi) _ 0]
  haveI : IsTotal ℕ (fun i j => vle (keys.getD i none) (keys.getD j none) = true) :=
    ⟨fun i j => vle_total _ _⟩
  haveI : IsTrans ℕ (fun i j => vle (keys.getD i none) (keys.getD j none) = true) :=
    ⟨fun i j k => vle_trans _ _ _⟩
  set idxs := npArgsort keys with hidxs
  have hperm : idxs.Perm (List.range n) := by
    rw [hidxs, npArgsort, hkeyslen]
    exact List.perm_insertionSort _ _
  have hsorted :
      List.Pairwise (fun i j => vle (keys.getD i none) (keys.getD j none) = true) idxs := by
    rw [hidxs, npArgsort]
    exact List.sorted_insertionSort _ _
  set k := (⌊f * (n : ℚ)⌋).toNat with hk
  set T := idxs.take k with hT
  have hsub : T.Sublist idxs := List.take_sublist _ _
  have hnodupidxs : idxs.Nodup := hperm.nodup_iff.mpr (List.nodup_range n)
  have hTnodup : T.Nodup := hnodupidxs.sublist hsub
  have hidxslen : idxs.length = n := hperm.length_eq.trans (List.length_range n)
  have hTlen : T.length = min k n := by rw [hT, List.length_take, hidxslen]
  have hmem_idxs : ∀ i, i ∈ idxs ↔ i < n := fun i => by
    rw [hperm.mem_iff, List.mem_range]
  have hTmem : ∀ i ∈ T, i < n := fun i hi => (hmem_idxs i).mp (hsub.subset hi)
  have hcross : ∀ i ∈ T, ∀ j ∈ idxs.drop k,
      vle (keys.getD i none) (keys.getD j none) = true := by
    have h2 := hsorted
    rw [← List.take_append_drop k idxs] at h2
    exact (List.pairwise_append.mp h2).2.2
  have hdom : ∀ i ∈ T, ∀ j, j < n → j ∉ T → rank.getD j 0 ≤ rank.getD i 0 := by
    intro i hi j hj hjT
    have hjidxs : j ∈ idxs := (hmem_idxs j).mpr hj
    have hjsplit : j ∈ idxs.take k ++ idxs.drop k := by
      rw [List.take_append_drop]
      exact hjidxs
    have hjdrop : j ∈ idxs.drop k := by
      rcases List.mem_append.mp hjsplit with h | h
      · exact absurd h hjT
      · exact h
    have hv := hcross i hi j hjdrop
    rw [hkeyget i (hTmem i hi), hkeyget j hj] at hv
    have h9 : -(rank.getD i 0) ≤ -(rank.getD j 0) := by
      simpa [vle, decide_eq_true_eq] using hv
    linarith
  have hlen_ms : (a.map some).length = n := by rw [List.length_map]
  have hmul_nonneg : (0:ℚ) ≤ f * (n : ℚ) := mul_nonneg h0.le (Nat.cast_nonneg n)
  have hnum : pyint (f * ((a.map some).length : ℚ)) = ⌊f * (n : ℚ)⌋ := by
    rw [hlen_ms, pyint, if_pos hmul_nonneg]
  have hfloor_nonneg : (0:ℤ) ≤ ⌊f * (n : ℚ)⌋ := Int.floor_nonneg.mpr hmul_nonneg
  have hsel : selectStep pred m (some f) (a.map some) =
      List.zipWith pmul (a.map some)
        ((List.range n).map (fun i => if i ∈ T then some 1 else some 0)) := by
    simp only [selectStep]
    rw [if_pos h1, hsal, hnum, hlen_ms]
    rw [pySliceTo, if_pos hfloor_nonneg]
  refine ⟨T, ⟨hTnodup, ?_, ?_, ?_⟩, ?_, ?_⟩
  · rw [hTlen, hranklen]
  · intro i hi
    rw [hranklen]
    exact hTmem i hi
  · intro i hi j hj hjT
    exact hdom i hi j (by rwa [hranklen] at hj) hjT
  · rw [hsel]
    simp [hlen_ms]
  · intro i hi
    rw [hsel]
    rw [getD_zipWith_of_lt pmul _ _ i (by rwa [hlen_ms]) (by simpa using hi) none
      (some 0) (some 0)]
    rw [getD_map_of_lt a some i hi _ 0]
    rw [getD_map_of_lt (List.range n) _ i (by simpa using hi) _ 0]
    rw [getD_range_of_lt n i hi]
    split_ifs with hmem <;> simp [pmul]

/-- Claim C2: with a salience fraction `0 < f < 1` the selector keeps
`k = ⌊f·n⌋` top-ranked indices.  The ranking vector equals the spec's
description (negate when the prediction is below 0.5, absolute values when
`match_to_pred` is false); the kept index set `T` is a valid top-`k` selection
for that ranking (distinct in-range indices, `min k n` of them, every selected
index ranking at least as high as every non-selected one); the displayed
vector keeps the original attribution at the selected indices and is zero
elsewhere.  On `[0.2, -0.8, 0.1]` with prediction 0.3, `f = 0.34` (`k = 1`)
and `match_to_pred = false`, the display is `[0, -0.8, 0]`. -/
theorem C2_salience_selector (a : List ℚ) (text : List String) (pred d : ℚ)
    (l : ℤ) (m : Bool) (f : ℚ) (h0 : 0 < f) (h1 : f < 1) :
    (∃ T w, IsTopKSelection (specRanking pred m a) (⌊f * (a.length : ℚ)⌋).toNat T ∧
      (visualization_record a text pred d l false (some f) m).map
        (fun r => r.word_attributions) = Except.ok w ∧
      w.length = a.length ∧
      (∀ i, i < a.length →
        w.getD i none = if i ∈ T then some (a.getD i 0) else some 0) ∧
      salVector pred m (a.map some) = (specRanking pred m a).map some) ∧
    (visualization_record [1/5, -4/5, 1/10] ["a", "b", "c"] (3/10) 0 1 false
        (some (17/50)) false).map (fun r => r.word_attributions) =
      Except.ok [some 0, some (-4/5), some 0] := by
  constructor
  · obtain ⟨T, hT, hlen, hpt⟩ := selectStep_topk pred m f h0 h1 a
    refine ⟨T, selectStep pred m (some f) (a.map some), hT, ?_, hlen, hpt,
      salVector_eq_spec pred m a⟩
    rw [visualization_record]
    simp [Except.map]
  · have hsal : salVector (3/10) false [some (1/5), some (-(4/5)), some (1/10)] =
        [some (1/5), some (4/5), some (1/10)] := by
      rw [salVector]
      norm_num [pneg, pabs, abs_of_nonpos, abs_of_nonneg]
    have hkeys : ([some ((1:ℚ)/5), some (4/5), some (1/10)] : List V).map pneg =
        [some (-(1/5)), some (-(4/5)), some (-(1/10))] := by simp [pneg]
    have hsort : npArgsort [some (-((1:ℚ)/5)), some (-((4:ℚ)/5)), some (-((1:ℚ)/10))] =
        [1, 0, 2] := by
      norm_num [npArgsort, List.insertionSort, List.orderedInsert, vle,
        decide_eq_true_eq, List.range_succ]
    have hint2 : pyint ((51:ℚ)/50) = 1 := by
      rw [pyint, if_pos (by norm_num)]
      rw [Int.floor_eq_iff]
      norm_num
    rw [visualization_record]
    norm_num [selectStep, Except.map]
    rw [hsal, hkeys, hsort, hint2]
    norm_num [pySliceTo, pmul, List.range_succ]

/-- Concrete instance of C2's general part at the spec's scenario input. -/
theorem C2_salience_selector_witness :
    ∃ T w,
      IsTopKSelection (specRanking (3/10) false [1/5, -4/5, 1/10])
        (⌊(17:ℚ)/50 * (([(1:ℚ)/5, -4/5, 1/10]).length : ℚ)⌋).toNat T ∧
      (visualization_record [1/5, -4/5, 1/10] ["a", "b", "c"] (3/10) 0 1 false
          (some (17/50)) false).map (fun r => r.word_attributions) = Except.ok w ∧
      w.length = ([(1:ℚ)/5, -4/5, 1/10]).length ∧
      (∀ i, i < ([(1:ℚ)/5, -4/5, 1/10]).length →
        w.getD i none =
          if i ∈ T then some (([(1:ℚ)/5, -4/5, 1/10]).getD i 0) else some 0) ∧
      salVector (3/10) false (([(1:ℚ)/5, -4/5, 1/10]).map some) =
        (specRanking (3/10) false [1/5, -4/5, 1/10]).map some :=
  (C2_salience_selector [1/5, -4/5, 1/10] ["a", "b", "c"] (3/10) 0 1 false (17/50)
    (by norm_num) (by norm_num)).1

/-! ## Claim C10 -/

/-- Claim C10: at a prediction of exactly 0.5 with `match_to_pred` true, the
ranking vector is the un-negated attribution vector (negation only fires
strictly below 0.5), while the same record's `predicted_class` is 0 (class 1
needs a prediction strictly above 0.5): salience direction and reported class
disagree at the boundary. -/
theorem C10_boundary_disagreement (a : List ℚ) (text : List String) (d : ℚ)
    (l : ℤ) (f : ℚ) (h0 : 0 < f) (h1 : f < 1) :
    salVector (1/2) true (a.map some) = a.map some ∧
    (visualization_record a text (1/2) d l false (some f) true).map
      (fun r => r.pred_class) = Except.ok 0 := by
  constructor
  · rw [salVector]
    rw [if_neg (by norm_num : ¬ ((1:ℚ)/2 < 1/2))]
    simp
  · rw [visualization_record]
    norm_num [Except.map]

/-- Concrete instance of C10. -/
theorem C10_boundary_disagreement_witness :
    salVector (1/2) true (([(2:ℚ), 1]).map some) = ([(2:ℚ), 1]).map some ∧
    (visualization_record [2, 1] [] (1/2) 0 0 false (some (1/2)) true).map
      (fun r => r.pred_class) = Except.ok 0 :=
  C10_boundary_disagreement [2, 1] [] 0 0 (1/2) (by norm_num) (by norm_num)
